import Mathlib

/-!
Verification of the histrion discrete-event simulator (`src/lib.rs` and the
modules it uses).  The Rust code is shallowly embedded: `f64` scalars wrapped
in `NotNan` become `ℚ` (the code relies on total order and exact field
arithmetic only; every divergence established below is an algebraic one, far
larger than any rounding), entities become `ℕ`, `HashMap`s become association
lists with unique keys, and the mutating interpreter becomes explicit state
passing over a `Workspace` record.  Recursion in `Workspace::run`
(`AsActor` re-enters the interpreter) is made total with a fuel parameter;
running out of fuel is reported as a separate outcome and never identified
with any behaviour of the program.

Errors returned as `Result::Err` in Rust are `failed` outcomes; panics
(`unwrap`, `expect`, `assert!`) are `fatal` outcomes.  Both are kept distinct
from ordinary termination.
-/

set_option allowUnsafeReducibility true in
attribute [semireducible] Rat.add Rat.mul Rat.sub Rat.inv Rat.ofScientific

namespace Histrion

/-- 3-vector of scalars, mirroring `vek::Vec3<f64>`. -/
structure Vec3 where
  x : ℚ
  y : ℚ
  z : ℚ
deriving DecidableEq

def Vec3.zero : Vec3 := ⟨0, 0, 0⟩

def Vec3.add (a b : Vec3) : Vec3 := ⟨a.x + b.x, a.y + b.y, a.z + b.z⟩

/-- Scalar multiplication, `v * c` in vek. -/
def Vec3.smul (v : Vec3) (c : ℚ) : Vec3 := ⟨v.x * c, v.y * c, v.z * c⟩

/-- `Vec3::magnitude_squared`. -/
def Vec3.magnitude_squared (v : Vec3) : ℚ := v.x * v.x + v.y * v.y + v.z * v.z

/-- `Trajectory` from `lib.rs`: `Fixed { value }` or
`Linear { start_place, start_time, start_velocity, accel }`.
`Position` is a newtype over `Vec3<f64>`, kept as a bare `Vec3` here;
`Instant` (`time.rs`, a `NotNan<f64>`) is a bare `ℚ`. -/
inductive Trajectory where
  | fixed (value : Vec3)
  | linear (start_place : Vec3) (start_time : ℚ) (start_velocity : Vec3) (accel : Vec3)
deriving DecidableEq

/-- `Trajectory::velocity_at` as written in `lib.rs`:
`dt = start_time.delta(time) = time - start_time`;
`dv = accel * dt.powi(2) * 0.5`; result `start_velocity + dv`. -/
def Trajectory.velocity_at : Trajectory → ℚ → Vec3
  | .fixed _, _ => Vec3.zero
  | .linear _ start_time start_velocity accel, time =>
    let dt := time - start_time
    let dv := (accel.smul (dt * dt)).smul (1/2)
    start_velocity.add dv

/-- `Trajectory::sample_at` as written in `lib.rs`:
`start_place.offset(velocity_at(time) * dt)`. -/
def Trajectory.sample_at (tr : Trajectory) (time : ℚ) : Vec3 :=
  match tr with
  | .fixed value => value
  | .linear start_place start_time _ _ =>
    let dt := time - start_time
    let velocity := tr.velocity_at time
    start_place.add (velocity.smul dt)

/-- The spec's velocity formula for a `Linear` trajectory
(`velocity at t is start_velocity + accel·Δt`), stated from the spec's words
for comparison with the source's `Trajectory.velocity_at`. -/
def specVelocityAt (start_velocity accel : Vec3) (dt : ℚ) : Vec3 :=
  start_velocity.add (accel.smul dt)

/-- The spec's position formula for a `Linear` trajectory
(`start_place + start_velocity·Δt + ½·accel·Δt²`), stated from the spec's
words for comparison with the source's `Trajectory.sample_at`. -/
def specPositionAt (start_place start_velocity accel : Vec3) (dt : ℚ) : Vec3 :=
  start_place.add ((start_velocity.smul dt).add ((accel.smul (dt * dt)).smul (1/2)))

/-- `Trajectory::default()`: `Fixed` at the origin. -/
def Trajectory.default : Trajectory := .fixed Vec3.zero

mutual
/-- Runtime values (`action.rs` as used by `lib.rs`): actor handle, non-NaN
number, or name-keyed struct. -/
inductive Value where
  | actorId (id : ℕ)
  | num (q : ℚ)
  | structV (fields : ValueFields)
deriving DecidableEq
/-- The field list of a struct value (`BTreeMap<Arc<str>, Value>`). -/
inductive ValueFields where
  | nil
  | cons (name : String) (v : Value) (rest : ValueFields)
deriving DecidableEq
end

/-- Lookup in a struct's field list (`BTreeMap::get`). -/
def ValueFields.get (name : String) : ValueFields → Option Value
  | .nil => none
  | .cons n v rest => if n = name then some v else ValueFields.get name rest

/-- `Signal { head, body }`, compared structurally. -/
structure Signal where
  head : String
  body : List Value
deriving DecidableEq

/-- The `Error` enum of `lib.rs`. -/
inductive Error where
  | noSuchGlobal (name : String)
  | missingPosition (name : String)
  | couldNotWrite (component : String)
  | noSuchField (name : String) (onValue : Value)
  | noSuchMethod (name : String)
  | argListMismatch (name : String) (wanted got : ℕ)
deriving DecidableEq

/-- Expressions (`Expr` as used by `lib.rs::eval_expr`). -/
inductive Expr where
  | myself
  | field (subject : Expr) (field_name : String)
  | var (name : String)
  | numConst (value : ℚ)
deriving DecidableEq

mutual
/-- Actions (`Action` as used by `lib.rs::run`) together with `Method`
(`{ params, script }`). -/
inductive Action where
  | halt
  | trace (expr : Expr)
  | spawn (name : String)
  | asActor (name : String) (script : List Action)
  | setAccel (value : Vec3)
  | wait (interval : ℚ)
  | listenFor (head : String) (args : List Expr)
  | transmit (head : String) (args : List Expr)
  | die
  | writeLocal (name : String) (value : Expr)
  | defGlobalMethod (name : String) (body : Method)
  | call (name : String) (args : List Expr)
  | ret
/-- `Method { params, script }` from `lib.rs`. -/
inductive Method where
  | mk (params : List String) (script : List Action)
end

def Method.params : Method → List String
  | .mk ps _ => ps

def Method.script : Method → List Action
  | .mk _ s => s

/-- `StackFrame { pc, script, locals }` from `task.rs`. -/
structure StackFrame where
  pc : ℕ
  script : List Action
  locals : List (String × Value)

/-- `Fiber { me, stack }` from `task.rs`; the head of `stack` is the top frame
(`Vec::last`). -/
structure Fiber where
  me : ℕ
  stack : List StackFrame

/-- `Fiber::new`. -/
def Fiber.new (me : ℕ) (script : List Action) : Fiber :=
  ⟨me, [⟨0, script, []⟩]⟩

/-- `Fiber::fetch`: read the top frame's `script[pc]` and advance `pc`.
Returns `none` when the stack is empty or the top frame's pc ran off the end
of its script. -/
def Fiber.fetch (f : Fiber) : Option (Action × Fiber) :=
  match f.stack with
  | [] => none
  | frame :: rest =>
    match frame.script.get? frame.pc with
    | none => none
    | some a => some (a, ⟨f.me, { frame with pc := frame.pc + 1 } :: rest⟩)

/-- `SortToken { eta, guid }` from `task.rs`, with the derived lexicographic
`Ord`. -/
structure SortToken where
  eta : ℚ
  guid : ℕ
deriving DecidableEq

/-- The derived `<` on `SortToken`: lexicographic on `(eta, guid)`. -/
def SortToken.ltB (a b : SortToken) : Bool :=
  decide (a.eta < b.eta) || (decide (a.eta = b.eta) && decide (a.guid < b.guid))

/-- Non-strict lexicographic order on `SortToken`, for stating minimality. -/
def SortToken.le (a b : SortToken) : Prop :=
  a.eta < b.eta ∨ (a.eta = b.eta ∧ a.guid ≤ b.guid)

/-- `QueuedTask { token, fiber }`. -/
structure QueuedTask where
  token : SortToken
  fiber : Fiber

/-- `Waiting { guid, fiber }`. -/
structure Waiting where
  guid : ℕ
  fiber : Fiber

/-- `Agenda { next, listening }`. -/
structure Agenda where
  next : Option QueuedTask
  listening : List (Signal × Waiting)

/-- `Agenda::default()`. -/
def Agenda.empty : Agenda := ⟨none, []⟩

inductive Liveness where
  | alive
  | dead
deriving DecidableEq

/-- The `Workspace` of `lib.rs` together with the ECS `World`'s component
storages, each an association list keyed by entity id.  `agendas` is kept in
entity-creation order (= `specs` join order); the other maps are only ever
used keyed. -/
structure Workspace where
  has_halted : Bool
  now : ℚ
  globals : List (String × ℕ)
  methods : List (String × Method)
  supervisor : ℕ
  task_counter : ℕ
  next_entity : ℕ
  positions : List (ℕ × Vec3)
  trajectories : List (ℕ × Trajectory)
  agendas : List (ℕ × Agenda)
  names : List (ℕ × String)
  creation_dates : List (ℕ × ℚ)
  liveness : List (ℕ × Liveness)

/-- `Workspace::new()`: the supervisor (entity 0, named `"Everything"`) with
an empty agenda, registered as the only global. -/
def Workspace.init : Workspace where
  has_halted := false
  now := 0
  globals := [("Everything", 0)]
  methods := []
  supervisor := 0
  task_counter := 0
  next_entity := 1
  positions := []
  trajectories := []
  agendas := [(0, Agenda.empty)]
  names := [(0, "Everything")]
  creation_dates := []
  liveness := []

-- association-list primitives (HashMap / component-storage operations)

/-- Keyed lookup (`HashMap::get` / storage `get`). -/
def alGet {α β : Type} [DecidableEq α] (k : α) : List (α × β) → Option β
  | [] => none
  | (k', v) :: rest => if k' = k then some v else alGet k rest

/-- Remove every binding of `k` (`HashMap::remove`; keys are unique in any
map the program builds, so at most one binding is ever removed). -/
def alRemove {α β : Type} [DecidableEq α] (k : α) : List (α × β) → List (α × β)
  | [] => []
  | (k', v) :: rest =>
    if k' = k then alRemove k rest else (k', v) :: alRemove k rest

/-- Insert-or-overwrite (`HashMap::insert`). -/
def alPut {α β : Type} [DecidableEq α] (k : α) (v : β) (l : List (α × β)) :
    List (α × β) :=
  (k, v) :: alRemove k l

/-- Overwrite in place, keeping list order (mutation through `get_mut`). -/
def alSet {α β : Type} [DecidableEq α] (k : α) (v : β) : List (α × β) → List (α × β)
  | [] => []
  | (k', v') :: rest =>
    if k' = k then (k, v) :: alSet k v rest else (k', v') :: alSet k v rest

/-- `Workspace::get_position`: return the cached position if present,
otherwise sample the actor's trajectory (defaulting to `Trajectory::default`)
at `now` and memoise the result.  The Rust signature is `Result<Position>`;
the body has no error path. -/
def Workspace.get_position (ws : Workspace) (id : ℕ) : Except Error Vec3 × Workspace :=
  match alGet id ws.positions with
  | some p => (.ok p, ws)
  | none =>
    let traj := (alGet id ws.trajectories).getD Trajectory.default
    let p := traj.sample_at ws.now
    (.ok p, { ws with positions := alPut id p ws.positions })

/-- `impl From<Position> for Value`: the struct `{ x, y, z }`. -/
def positionToValue (p : Vec3) : Value :=
  .structV (.cons "x" (.num p.x) (.cons "y" (.num p.y) (.cons "z" (.num p.z) .nil)))

/-- Locals of the top stack frame (`fiber.frame().unwrap().locals`); the
interpreter only evaluates expressions under fibers with a non-empty stack,
so the `[]` default is unreachable. -/
def Fiber.topLocals (f : Fiber) : List (String × Value) :=
  match f.stack with
  | [] => []
  | frame :: _ => frame.locals

/-- `Workspace::eval_expr`.  The workspace is threaded because `position`
field reads memoise through `get_position`. -/
def Workspace.eval_expr (ws : Workspace) (f : Fiber) : Expr → Workspace × Except Error Value
  | .myself => (ws, .ok (.actorId f.me))
  | .numConst q => (ws, .ok (.num q))
  | .var name =>
    match alGet name f.topLocals with
    | some v => (ws, .ok v)
    | none =>
      match alGet name ws.globals with
      | some id => (ws, .ok (.actorId id))
      | none => (ws, .error (.noSuchGlobal name))
  | .field subject field_name =>
    match ws.eval_expr f subject with
    | (ws₁, .error e) => (ws₁, .error e)
    | (ws₁, .ok (.actorId id)) =>
      if field_name = "position" then
        match ws₁.get_position id with
        | (.ok p, ws₂) => (ws₂, .ok (positionToValue p))
        | (.error e, ws₂) => (ws₂, .error e)
      else (ws₁, .error (.noSuchField field_name (.actorId id)))
    | (ws₁, .ok (.structV dict)) =>
      match dict.get field_name with
      | some v => (ws₁, .ok v)
      | none => (ws₁, .error (.noSuchField field_name (.structV dict)))
    | (ws₁, .ok other) => (ws₁, .error (.noSuchField field_name other))

/-- Evaluate an argument list left to right, short-circuiting on the first
error (`args.iter().map(..).collect::<Result<..>>()`). -/
def Workspace.evalArgs (ws : Workspace) (f : Fiber) : List Expr → Workspace × Except Error (List Value)
  | [] => (ws, .ok [])
  | e :: rest =>
    match ws.eval_expr f e with
    | (ws₁, .error err) => (ws₁, .error err)
    | (ws₁, .ok v) =>
      match ws₁.evalArgs f rest with
      | (ws₂, .error err) => (ws₂, .error err)
      | (ws₂, .ok vs) => (ws₂, .ok (v :: vs))

/-- Evaluate `Call` arguments and bind them to parameter names
(`params.iter().zip(args.iter())`, building `locals`). -/
def Workspace.bindArgs (ws : Workspace) (f : Fiber) :
    List String → List Expr → List (String × Value) → Workspace × Except Error (List (String × Value))
  | [], _, acc => (ws, .ok acc)
  | _ :: _, [], acc => (ws, .ok acc)
  | p :: ps, e :: es, acc =>
    match ws.eval_expr f e with
    | (ws₁, .error err) => (ws₁, .error err)
    | (ws₁, .ok v) => ws₁.bindArgs f ps es (alPut p v acc)

/-- Why `Workspace::run`'s loop stopped fetching. -/
inductive ExitKind where
  /-- `fetch` returned `None`. -/
  | exhausted
  /-- `break` out of the loop from `Action::Wait`. -/
  | suspendedWait
  /-- `break` out of the loop from `Action::ListenFor`. -/
  | suspendedListen
deriving DecidableEq

/-- How the body of `Workspace::run`'s `while let` loop ends for one action. -/
inductive ActionOut where
  /-- The action completed; the loop fetches again. -/
  | contin (ws : Workspace) (f : Fiber)
  /-- `break`: the fiber suspended (`Wait` or `ListenFor`). -/
  | suspended (ws : Workspace) (k : ExitKind)
  /-- `return Err(..)` via `?`. -/
  | failed (ws : Workspace) (e : Error)
  /-- A panic (`unwrap` / `expect`). -/
  | fatalErr (ws : Workspace) (msg : String)
  /-- Fuel exhausted inside a nested `AsActor` run (artefact of the fuelled
  embedding, not a program behaviour). -/
  | noFuel (ws : Workspace) (f : Fiber)

/-- Result of `Workspace::run` (which returns `Result<()>` in Rust; the
workspace state and the exit cause are carried explicitly here). -/
inductive RunResult where
  | done (ws : Workspace) (k : ExitKind)
  | failed (ws : Workspace) (e : Error)
  | fatal (ws : Workspace) (msg : String)
  | fuelOut (ws : Workspace) (f : Fiber)

/-- One `Signal` transmit against one agenda (`Action::Transmit`'s loop
body): if `listening` holds the signal, remove the entry and overwrite
`next` with a task whose eta is the transmit instant and whose guid is the
listener's. -/
def transmitOne (sig : Signal) (eta : ℚ) (ag : Agenda) : Agenda :=
  match alGet sig ag.listening with
  | some w => ⟨some ⟨⟨eta, w.guid⟩, w.fiber⟩, alRemove sig ag.listening⟩
  | none => ag

/-- `Action::Transmit`'s `for agenda in (&mut agenda).join()` loop over every
actor's agenda. -/
def transmitAgendas (sig : Signal) (eta : ℚ) (l : List (ℕ × Agenda)) : List (ℕ × Agenda) :=
  l.map fun p => (p.1, transmitOne sig eta p.2)

/-- `Action::Trace`: evaluate the expression (output is diagnostic only). -/
def execTrace (ws : Workspace) (f : Fiber) (e : Expr) : ActionOut :=
  match ws.eval_expr f e with
  | (ws₁, .error err) => .failed ws₁ err
  | (ws₁, .ok _) => .contin ws₁ f

/-- `Action::Spawn`: create an actor at the spawner's position with a fresh
entity id, empty agenda and `Fixed` trajectory, and bind it as a global. -/
def execSpawn (ws : Workspace) (f : Fiber) (name : String) : ActionOut :=
  match ws.get_position f.me with
  | (.error e, ws₁) => .failed ws₁ e
  | (.ok pos, ws₁) =>
    let id := ws₁.next_entity
    .contin { ws₁ with
      next_entity := id + 1
      names := alPut id name ws₁.names
      creation_dates := alPut id ws₁.now ws₁.creation_dates
      agendas := ws₁.agendas ++ [(id, Agenda.empty)]
      trajectories := alPut id (.fixed pos) ws₁.trajectories
      globals := alPut name id ws₁.globals } f

/-- `Action::SetAccel`: read current position and velocity, then overwrite
the trajectory; collapse to `Fixed` iff both the old velocity and the new
acceleration have zero squared magnitude. -/
def execSetAccel (ws : Workspace) (f : Fiber) (value : Vec3) : ActionOut :=
  match ws.get_position f.me with
  | (.error e, ws₁) => .failed ws₁ e
  | (.ok start_place, ws₁) =>
    match alGet f.me ws₁.trajectories with
    | none => .failed ws₁ (.couldNotWrite "Trajectory")
    | some tr =>
      let start_velocity := tr.velocity_at ws₁.now
      let newTr :=
        if start_velocity.magnitude_squared = 0 ∧ value.magnitude_squared = 0 then
          Trajectory.fixed start_place
        else
          Trajectory.linear start_place ws₁.now start_velocity value
      .contin { ws₁ with trajectories := alSet f.me newTr ws₁.trajectories } f

/-- `Action::Wait`: allocate a guid, park the fiber on its actor's
`Agenda.next` with `eta = now + interval` (overwriting any task already
there), and `break`. -/
def execWait (ws : Workspace) (f : Fiber) (interval : ℚ) : ActionOut :=
  let guid := ws.task_counter
  let ws₁ := { ws with task_counter := guid + 1 }
  let token : SortToken := ⟨ws₁.now + interval, guid⟩
  match alGet f.me ws₁.agendas with
  | none => .fatalErr ws₁ "Agenda missing"
  | some ag =>
    let ag' : Agenda := { ag with next := some ⟨token, f⟩ }
    .suspended { ws₁ with agendas := alSet f.me ag' ws₁.agendas } .suspendedWait

/-- `Action::ListenFor`: allocate a guid, evaluate the arguments into a
signal, insert the listener, and `break`.  Note the guid is consumed before
the arguments are evaluated. -/
def execListenFor (ws : Workspace) (f : Fiber) (head : String) (args : List Expr) : ActionOut :=
  let guid := ws.task_counter
  let ws₁ := { ws with task_counter := guid + 1 }
  match ws₁.evalArgs f args with
  | (ws₂, .error e) => .failed ws₂ e
  | (ws₂, .ok body) =>
    let sig : Signal := ⟨head, body⟩
    match alGet f.me ws₂.agendas with
    | none => .fatalErr ws₂ "Agenda unwrap"
    | some ag =>
      let ag' : Agenda := { ag with listening := alPut sig ⟨guid, f⟩ ag.listening }
      .suspended { ws₂ with agendas := alSet f.me ag' ws₂.agendas } .suspendedListen

/-- `Action::Transmit`: evaluate the arguments into a signal, then wake every
matching listener at `eta = now`; the transmitter continues (no `break`). -/
def execTransmit (ws : Workspace) (f : Fiber) (head : String) (args : List Expr) : ActionOut :=
  match ws.evalArgs f args with
  | (ws₁, .error e) => .failed ws₁ e
  | (ws₁, .ok body) =>
    let sig : Signal := ⟨head, body⟩
    .contin { ws₁ with agendas := transmitAgendas sig ws₁.now ws₁.agendas } f

/-- `Action::Die`: mark the actor dead. -/
def execDie (ws : Workspace) (f : Fiber) : ActionOut :=
  .contin { ws with liveness := alPut f.me Liveness.dead ws.liveness } f

/-- `Action::WriteLocal`: evaluate and bind in the top frame's locals. -/
def execWriteLocal (ws : Workspace) (f : Fiber) (name : String) (value : Expr) : ActionOut :=
  match ws.eval_expr f value with
  | (ws₁, .error e) => .failed ws₁ e
  | (ws₁, .ok v) =>
    match f.stack with
    | [] => .fatalErr ws₁ "frame unwrap"
    | frame :: rest =>
      .contin ws₁ ⟨f.me, { frame with locals := alPut name v frame.locals } :: rest⟩

/-- `Action::Call`: look up the method, check arity, evaluate the arguments
into fresh locals, and push a stack frame. -/
def execCall (ws : Workspace) (f : Fiber) (name : String) (args : List Expr) : ActionOut :=
  match alGet name ws.methods with
  | none => .failed ws (.noSuchMethod name)
  | some m =>
    if m.params.length ≠ args.length then
      .failed ws (.argListMismatch name m.params.length args.length)
    else
      match ws.bindArgs f m.params args [] with
      | (ws₁, .error e) => .failed ws₁ e
      | (ws₁, .ok locals) => .contin ws₁ ⟨f.me, ⟨0, m.script, locals⟩ :: f.stack⟩

/-- Dispatch of every action except the recursive `AsActor`
(one arm of the `match action` in `Workspace::run`). -/
def execAction1 (ws : Workspace) (f : Fiber) : Action → ActionOut
  | .halt => .contin { ws with has_halted := true } f
  | .trace e => execTrace ws f e
  | .spawn name => execSpawn ws f name
  | .asActor _ _ => .contin ws f
  | .setAccel value => execSetAccel ws f value
  | .wait interval => execWait ws f interval
  | .listenFor head args => execListenFor ws f head args
  | .transmit head args => execTransmit ws f head args
  | .die => execDie ws f
  | .writeLocal name value => execWriteLocal ws f name value
  | .defGlobalMethod name body => .contin { ws with methods := alPut name body ws.methods } f
  | .call name args => execCall ws f name args
  | .ret => .contin ws ⟨f.me, f.stack.tail⟩

/-- Resume the `while let` loop after one dispatched action: continue
fetching, or convert a `break` / error / panic into the loop's result. -/
def stepRun (next : Workspace → Fiber → RunResult) : ActionOut → RunResult
  | .contin ws f => next ws f
  | .suspended ws k => .done ws k
  | .failed ws e => .failed ws e
  | .fatalErr ws m => .fatal ws m
  | .noFuel ws g => .fuelOut ws g

/-- How a nested `self.run(fiber)?` inside `AsActor` ends for the outer
fiber: normal completion of the nested run (whether its frame was exhausted
or it suspended onto an agenda) lets the outer fiber continue. -/
def asActorOut (r : RunResult) (f : Fiber) : ActionOut :=
  match r with
  | .done ws _ => .contin ws f
  | .failed ws e => .failed ws e
  | .fatal ws m => .fatalErr ws m
  | .fuelOut ws g => .noFuel ws g

/-- `Workspace::run`, fuelled: fetch and dispatch until the top frame is
exhausted, the fiber suspends, an error propagates, or a panic occurs.  One
unit of fuel bounds one loop iteration (and the depth of nested `AsActor`
runs); `fuelOut` is reported separately and never conflated with
termination. -/
def runAux : ℕ → Workspace → Fiber → RunResult
  | 0, ws, f => .fuelOut ws f
  | Nat.succ n, ws, f =>
    match f.fetch with
    | none => .done ws .exhausted
    | some (a, f') =>
      stepRun (fun w g => runAux n w g)
        (match a with
         | .asActor name script =>
           match alGet name ws.globals with
           | none => .failed ws (.noSuchGlobal name)
           | some me =>
             match f'.stack with
             | [] => .fatalErr ws "frame unwrap"
             | frame :: _ => asActorOut (runAux n ws ⟨me, [⟨0, script, frame.locals⟩]⟩) f'
         | a => execAction1 ws f' a)

/-- The effect of dispatching a single fetched action, including the
recursive `AsActor` (which re-enters `runAux` with the given fuel).  For
every other action this agrees with `execAction1`. -/
def execAction (fuel : ℕ) (ws : Workspace) (f : Fiber) : Action → ActionOut
  | .asActor name script =>
    match alGet name ws.globals with
    | none => .failed ws (.noSuchGlobal name)
    | some me =>
      match f.stack with
      | [] => .fatalErr ws "frame unwrap"
      | frame :: _ => asActorOut (runAux fuel ws ⟨me, [⟨0, script, frame.locals⟩]⟩) f
  | a => execAction1 ws f a

/-- The scan loop of `Workspace::find_next_task`: walk the agendas keeping
the entity/token pair with the least token; a later task replaces the
accumulator unless the accumulator's token is strictly smaller
(`if prev_token < &token { continue; }`). -/
def scanMin : List (ℕ × Agenda) → Option (ℕ × SortToken) → Option (ℕ × SortToken)
  | [], acc => acc
  | (id, ag) :: rest, acc =>
    match ag.next with
    | none => scanMin rest acc
    | some task =>
      match acc with
      | some prev =>
        if SortToken.ltB prev.2 task.token then scanMin rest acc
        else scanMin rest (some (id, task.token))
      | none => scanMin rest (some (id, task.token))

/-- The tasks currently parked across all agendas, as `(entity, token)`
pairs in agenda order. -/
def parkedOf (l : List (ℕ × Agenda)) : List (ℕ × SortToken) :=
  l.filterMap fun p => p.2.next.map fun t => (p.1, t.token)

/-- `Workspace::find_next_task`: select the parked task with the least
`SortToken` and take it off its agenda; with no parked task, synthesise a
`Halt` fiber on the supervisor at `eta = now + Interval::one()`.  `none`
models the (unreachable) `unwrap` panics after a successful scan. -/
def Workspace.find_next_task (ws : Workspace) : Option ((ℚ × Fiber) × Workspace) :=
  match scanMin ws.agendas none with
  | some (id, _tok) =>
    match alGet id ws.agendas with
    | some ag =>
      match ag.next with
      | some task =>
        some ((task.token.eta, task.fiber),
              { ws with agendas := alSet id { ag with next := none } ws.agendas })
      | none => none
    | none => none
  | none => some ((ws.now + 1, Fiber.new ws.supervisor [.halt]), ws)

/-- `Workspace::update`: pick the next task, assert the clock never runs
backwards (`assert!(time >= self.now)`, a fatal panic), advance `now`, clear
the position cache, and run the fiber. -/
def Workspace.update (fuel : ℕ) (ws : Workspace) : RunResult :=
  match ws.find_next_task with
  | none => .fatal ws "next take unwrap"
  | some ((time, f), ws₁) =>
    if time < ws₁.now then .fatal ws₁ "Time went backwards"
    else runAux fuel { ws₁ with now := time, positions := [] } f

/-- Result of `Workspace::simulate`, carrying the number of dispatches
(calls to `update`) performed. -/
inductive SimResult where
  | done (ws : Workspace) (dispatches : ℕ)
  | failed (ws : Workspace) (e : Error) (dispatches : ℕ)
  | fatal (ws : Workspace) (msg : String) (dispatches : ℕ)
  | fuelOut (ws : Workspace) (dispatches : ℕ)

/-- `Workspace::simulate`: `while !has_halted { update()? }`, fuelled. -/
def Workspace.simulate : ℕ → Workspace → ℕ → SimResult
  | 0, ws, k => .fuelOut ws k
  | Nat.succ n, ws, k =>
    if ws.has_halted then .done ws k
    else
      match ws.update n with
      | .done ws₁ _ => Workspace.simulate n ws₁ (k + 1)
      | .failed ws₁ e => .failed ws₁ e (k + 1)
      | .fatal ws₁ m => .fatal ws₁ m (k + 1)
      | .fuelOut ws₁ _ => .fuelOut ws₁ (k + 1)

-- observation helpers used only to state concrete (closed) theorems

/-- The workspace carried by a `RunResult`. -/
def RunResult.endWs : RunResult → Workspace
  | .done ws _ => ws
  | .failed ws _ => ws
  | .fatal ws _ => ws
  | .fuelOut ws _ => ws

/-- The exit kind of a normally completed run. -/
def RunResult.kindOf : RunResult → Option ExitKind
  | .done _ k => some k
  | _ => none

/-- The workspace carried by an `ActionOut`. -/
def ActionOut.outWs : ActionOut → Workspace
  | .contin ws _ => ws
  | .suspended ws _ => ws
  | .failed ws _ => ws
  | .fatalErr ws _ => ws
  | .noFuel ws _ => ws

/-- The workspace carried by a `SimResult`. -/
def SimResult.wsOf : SimResult → Workspace
  | .done ws _ => ws
  | .failed ws _ _ => ws
  | .fatal ws _ _ => ws
  | .fuelOut ws _ => ws

/-- The dispatch count of a completed simulation. -/
def SimResult.dispOf : SimResult → Option ℕ
  | .done _ k => some k
  | _ => none

/-- `ws'` differs from `ws` at most in the position cache: expression
evaluation (hence `get_position`) touches nothing else. -/
def Untouched (ws ws' : Workspace) : Prop :=
  ws'.now = ws.now ∧ ws'.agendas = ws.agendas ∧ ws'.task_counter = ws.task_counter

theorem Untouched.same (ws : Workspace) : Untouched ws ws := ⟨Eq.refl _, Eq.refl _, Eq.refl _⟩

theorem Untouched.trans {a b c : Workspace} (h₁ : Untouched a b) (h₂ : Untouched b c) :
    Untouched a c :=
  ⟨h₂.1.trans h₁.1, h₂.2.1.trans h₁.2.1, h₂.2.2.trans h₁.2.2⟩


theorem get_position_untouched (ws : Workspace) (id : ℕ) :
    Untouched ws (ws.get_position id).2 := by
  unfold Workspace.get_position
  rcases h : alGet id ws.positions with _ | p
  · exact ⟨Eq.refl _, Eq.refl _, Eq.refl _⟩
  · exact Untouched.same ws

theorem eval_expr_untouched (e : Expr) : ∀ (ws : Workspace) (f : Fiber),
    Untouched ws (ws.eval_expr f e).1 := by
  induction e with
  | myself => exact fun ws f => Untouched.same ws
  | numConst q => exact fun ws f => Untouched.same ws
  | var name =>
    intro ws f
    unfold Workspace.eval_expr
    rcases alGet name f.topLocals with _ | v
    · rcases alGet name ws.globals with _ | id
      · exact Untouched.same ws
      · exact Untouched.same ws
    · exact Untouched.same ws
  | field subject field_name ih =>
    intro ws f
    unfold Workspace.eval_expr
    split
    · next ws₁ err heq =>
      have h0 := ih ws f
      rw [heq] at h0
      exact h0
    · next ws₁ id heq =>
      have h : Untouched ws ws₁ := by
        have h0 := ih ws f
        rw [heq] at h0
        exact h0
      split
      · split
        · next p ws₂ hg =>
          have h2 : Untouched ws₁ ws₂ := by
            have h0 := get_position_untouched ws₁ id
            rw [hg] at h0
            exact h0
          exact h.trans h2
        · next e2 ws₂ hg =>
          have h2 : Untouched ws₁ ws₂ := by
            have h0 := get_position_untouched ws₁ id
            rw [hg] at h0
            exact h0
          exact h.trans h2
      · exact h
    · next ws₁ dict heq =>
      have h : Untouched ws ws₁ := by
        have h0 := ih ws f
        rw [heq] at h0
        exact h0
      split
      · exact h
      · exact h
    · next ws₁ other hx1 hx2 heq =>
      have h0 := ih ws f
      rw [heq] at h0
      exact h0

theorem evalArgs_untouched (args : List Expr) : ∀ (ws : Workspace) (f : Fiber),
    Untouched ws (ws.evalArgs f args).1 := by
  induction args with
  | nil => exact fun ws f => Untouched.same ws
  | cons e rest ih =>
    intro ws f
    unfold Workspace.evalArgs
    split
    · next ws₁ err heq =>
      have h0 := eval_expr_untouched e ws f
      rw [heq] at h0
      exact h0
    · next ws₁ v heq =>
      have h : Untouched ws ws₁ := by
        have h0 := eval_expr_untouched e ws f
        rw [heq] at h0
        exact h0
      split
      · next ws₂ err heq₂ =>
        have h2 : Untouched ws₁ ws₂ := by
          have h0 := ih ws₁ f
          rw [heq₂] at h0
          exact h0
        exact h.trans h2
      · next ws₂ vs heq₂ =>
        have h2 : Untouched ws₁ ws₂ := by
          have h0 := ih ws₁ f
          rw [heq₂] at h0
          exact h0
        exact h.trans h2

theorem bindArgs_untouched (ps : List String) : ∀ (es : List Expr)
    (ws : Workspace) (f : Fiber) (acc : List (String × Value)),
    Untouched ws (ws.bindArgs f ps es acc).1 := by
  induction ps with
  | nil => intro es ws f acc; exact Untouched.same ws
  | cons p ps ih =>
    intro es ws f acc
    match es with
    | [] => exact Untouched.same ws
    | e :: es =>
      unfold Workspace.bindArgs
      rcases hs : ws.eval_expr f e with ⟨ws₁, r⟩
      have h : Untouched ws ws₁ := by
        have h0 := eval_expr_untouched e ws f
        rw [hs] at h0
        exact h0
      rcases r with err | v
      · exact h
      · exact h.trans (ih es ws₁ f (alPut p v acc))

theorem execAction1_now (ws : Workspace) (f : Fiber) (a : Action) :
    (execAction1 ws f a).outWs.now = ws.now := by
  cases a with
  | halt => rfl
  | trace e =>
    show (execTrace ws f e).outWs.now = ws.now
    unfold execTrace
    split
    · next ws₁ err heq =>
      have h0 := (eval_expr_untouched e ws f).1
      rw [heq] at h0
      exact h0
    · next ws₁ v heq =>
      have h0 := (eval_expr_untouched e ws f).1
      rw [heq] at h0
      exact h0
  | spawn name =>
    show (execSpawn ws f name).outWs.now = ws.now
    unfold execSpawn
    split
    · next err ws₁ heq =>
      have h0 := (get_position_untouched ws f.me).1
      rw [heq] at h0
      exact h0
    · next p ws₁ heq =>
      have h0 := (get_position_untouched ws f.me).1
      rw [heq] at h0
      exact h0
  | asActor name script => rfl
  | setAccel value =>
    show (execSetAccel ws f value).outWs.now = ws.now
    unfold execSetAccel
    split
    · next err ws₁ heq =>
      have h0 := (get_position_untouched ws f.me).1
      rw [heq] at h0
      exact h0
    · next p ws₁ heq =>
      have h : ws₁.now = ws.now := by
        have h0 := (get_position_untouched ws f.me).1
        rw [heq] at h0
        exact h0
      split
      · exact h
      · exact h
  | wait interval =>
    show (execWait ws f interval).outWs.now = ws.now
    simp only [execWait]
    split
    · rfl
    · rfl
  | listenFor head args =>
    show (execListenFor ws f head args).outWs.now = ws.now
    simp only [execListenFor]
    split
    · next ws₂ err heq =>
      have h0 := (evalArgs_untouched args { ws with task_counter := ws.task_counter + 1 } f).1
      rw [heq] at h0
      exact h0
    · next ws₂ body heq =>
      have h : ws₂.now = ws.now := by
        have h0 := (evalArgs_untouched args { ws with task_counter := ws.task_counter + 1 } f).1
        rw [heq] at h0
        exact h0
      split
      · exact h
      · exact h
  | transmit head args =>
    show (execTransmit ws f head args).outWs.now = ws.now
    unfold execTransmit
    split
    · next ws₁ err heq =>
      have h0 := (evalArgs_untouched args ws f).1
      rw [heq] at h0
      exact h0
    · next ws₁ body heq =>
      have h0 := (evalArgs_untouched args ws f).1
      rw [heq] at h0
      exact h0
  | die => rfl
  | writeLocal name value =>
    show (execWriteLocal ws f name value).outWs.now = ws.now
    unfold execWriteLocal
    split
    · next ws₁ err heq =>
      have h0 := (eval_expr_untouched value ws f).1
      rw [heq] at h0
      exact h0
    · next ws₁ v heq =>
      have h : ws₁.now = ws.now := by
        have h0 := (eval_expr_untouched value ws f).1
        rw [heq] at h0
        exact h0
      split
      · exact h
      · exact h
  | defGlobalMethod name body => rfl
  | call name args =>
    show (execCall ws f name args).outWs.now = ws.now
    unfold execCall
    split
    · rfl
    · next m heq =>
      split
      · rfl
      · split
        · next ws₁ err heq₂ =>
          have h0 := (bindArgs_untouched m.params args ws f []).1
          rw [heq₂] at h0
          exact h0
        · next ws₁ locals heq₂ =>
          have h0 := (bindArgs_untouched m.params args ws f []).1
          rw [heq₂] at h0
          exact h0
  | ret => rfl

theorem asActorOut_outWs (r : RunResult) (f : Fiber) :
    (asActorOut r f).outWs = r.endWs := by
  cases r <;> rfl

theorem stepRun_now (n : ℕ)
    (ih : ∀ (ws : Workspace) (f : Fiber), (runAux n ws f).endWs.now = ws.now)
    (w0 : ℚ) (out : ActionOut) (hout : out.outWs.now = w0) :
    (stepRun (fun w g => runAux n w g) out).endWs.now = w0 := by
  cases out with
  | contin ws₁ f₁ => exact (ih ws₁ f₁).trans hout
  | suspended ws₁ k => exact hout
  | failed ws₁ e => exact hout
  | fatalErr ws₁ m => exact hout
  | noFuel ws₁ g => exact hout

/-- Unfolding lemma for one loop iteration of `runAux`, phrased through
`execAction`. -/
theorem runAux_succ (n : ℕ) (ws : Workspace) (f : Fiber) :
    runAux (Nat.succ n) ws f =
      match f.fetch with
      | none => .done ws .exhausted
      | some (a, f') => stepRun (fun w g => runAux n w g) (execAction n ws f' a) := by
  conv_lhs => unfold runAux
  rcases hf : f.fetch with _ | ⟨a, f'⟩
  · rfl
  · cases a <;> rfl

theorem execAction_now (n : ℕ) (ws : Workspace) (f : Fiber) (a : Action)
    (h : ∀ (w : Workspace) (g : Fiber), (runAux n w g).endWs.now = w.now) :
    (execAction n ws f a).outWs.now = ws.now := by
  cases a
  case asActor name script =>
    show (execAction n ws f (.asActor name script)).outWs.now = ws.now
    unfold execAction
    dsimp only
    rcases halg : alGet name ws.globals with _ | me
    · rfl
    · dsimp only
      rcases hs : f.stack with _ | ⟨frame, rest⟩
      · rfl
      · dsimp only
        rw [asActorOut_outWs]
        exact h ws ⟨me, [⟨0, script, frame.locals⟩]⟩
  case halt => exact execAction1_now ws f .halt
  case trace e => exact execAction1_now ws f (.trace e)
  case spawn name => exact execAction1_now ws f (.spawn name)
  case setAccel v => exact execAction1_now ws f (.setAccel v)
  case wait i => exact execAction1_now ws f (.wait i)
  case listenFor hd args => exact execAction1_now ws f (.listenFor hd args)
  case transmit hd args => exact execAction1_now ws f (.transmit hd args)
  case die => exact execAction1_now ws f .die
  case writeLocal name v => exact execAction1_now ws f (.writeLocal name v)
  case defGlobalMethod name b => exact execAction1_now ws f (.defGlobalMethod name b)
  case call name args => exact execAction1_now ws f (.call name args)
  case ret => exact execAction1_now ws f .ret

theorem runAux_now : ∀ (n : ℕ) (ws : Workspace) (f : Fiber),
    (runAux n ws f).endWs.now = ws.now := by
  intro n
  induction n with
  | zero => intro ws f; rfl
  | succ n ih =>
    intro ws f
    rw [runAux_succ]
    rcases hf : f.fetch with _ | ⟨a, f'⟩
    · rfl
    · exact stepRun_now n ih ws.now _ (execAction_now n ws f' a ih)

-- order lemmas for `SortToken`

theorem SortToken.le_refl (a : SortToken) : SortToken.le a a := Or.inr ⟨rfl, Nat.le_refl _⟩

theorem SortToken.le_trans {a b c : SortToken} (h₁ : SortToken.le a b) (h₂ : SortToken.le b c) :
    SortToken.le a c := by
  rcases h₁ with h₁ | ⟨he₁, hg₁⟩
  · rcases h₂ with h₂ | ⟨he₂, hg₂⟩
    · exact Or.inl (lt_trans h₁ h₂)
    · exact Or.inl (he₂ ▸ h₁)
  · rcases h₂ with h₂ | ⟨he₂, hg₂⟩
    · exact Or.inl (he₁ ▸ h₂)
    · exact Or.inr ⟨he₁.trans he₂, Nat.le_trans hg₁ hg₂⟩

theorem SortToken.le_of_ltB {a b : SortToken} (h : SortToken.ltB a b = true) :
    SortToken.le a b := by
  simp only [SortToken.ltB, Bool.or_eq_true, Bool.and_eq_true, decide_eq_true_eq] at h
  rcases h with h | ⟨he, hg⟩
  · exact Or.inl h
  · exact Or.inr ⟨he, Nat.le_of_lt hg⟩

theorem SortToken.le_of_not_ltB {a b : SortToken} (h : SortToken.ltB a b = false) :
    SortToken.le b a := by
  simp only [SortToken.ltB, Bool.or_eq_false_iff, Bool.and_eq_false_iff,
    decide_eq_false_iff_not] at h
  obtain ⟨h₁, h₂⟩ := h
  rcases lt_trichotomy b.eta a.eta with hlt | heq | hgt
  · exact Or.inl hlt
  · refine Or.inr ⟨heq, ?_⟩
    rcases h₂ with h₂ | h₂
    · exact absurd heq.symm h₂
    · exact Nat.le_of_not_lt h₂
  · exact absurd hgt h₁

theorem SortToken.eta_le_of_le {a b : SortToken} (h : SortToken.le a b) : a.eta ≤ b.eta := by
  rcases h with h | ⟨he, _⟩
  · exact le_of_lt h
  · exact le_of_eq he

-- the scan of `find_next_task` returns a parked task of minimal token

theorem scanMin_none : ∀ (l : List (ℕ × Agenda)) (acc : Option (ℕ × SortToken)),
    scanMin l acc = none → parkedOf l = [] ∧ acc = none := by
  intro l
  induction l with
  | nil => intro acc h; exact ⟨rfl, h⟩
  | cons p rest ih =>
    intro acc h
    obtain ⟨id, ag⟩ := p
    unfold scanMin at h
    split at h
    · next hn =>
      obtain ⟨h₁, h₂⟩ := ih acc h
      exact ⟨by simp [parkedOf, hn]; simpa [parkedOf] using h₁, h₂⟩
    · next task hn =>
      split at h
      · split at h
        · obtain ⟨_, h₂⟩ := ih _ h
          exact absurd h₂ (by simp)
        · obtain ⟨_, h₂⟩ := ih _ h
          exact absurd h₂ (by simp)
      · obtain ⟨_, h₂⟩ := ih _ h
        exact absurd h₂ (by simp)

theorem scanMin_spec : ∀ (l : List (ℕ × Agenda)) (acc : Option (ℕ × SortToken))
    (r : ℕ × SortToken), scanMin l acc = some r →
    (r ∈ parkedOf l ∨ acc = some r) ∧
    (∀ p ∈ parkedOf l, SortToken.le r.2 p.2) ∧
    (∀ q, acc = some q → SortToken.le r.2 q.2) := by
  intro l
  induction l with
  | nil =>
    intro acc r h
    have hacc : acc = some r := h
    refine ⟨Or.inr hacc, by simp [parkedOf], ?_⟩
    intro q hq
    rw [hacc] at hq
    cases hq
    exact SortToken.le_refl _
  | cons p rest ih =>
    intro acc r h
    obtain ⟨id, ag⟩ := p
    unfold scanMin at h
    split at h
    · next hn =>
      obtain ⟨hmem, hmin, hacc⟩ := ih acc r h
      refine ⟨?_, ?_, hacc⟩
      · rcases hmem with hmem | hmem
        · exact Or.inl (by simp [parkedOf, hn]; simpa [parkedOf] using hmem)
        · exact Or.inr hmem
      · intro q hq
        refine hmin q ?_
        simpa [parkedOf, hn] using hq
    · next task hn =>
      have hparked : parkedOf ((id, ag) :: rest) = (id, task.token) :: parkedOf rest := by
        simp [parkedOf, hn]
      split at h
      · next prev =>
        split at h
        · next hlt =>
          obtain ⟨hmem, hmin, hacc⟩ := ih (some prev) r h
          have hle : SortToken.le r.2 prev.2 := hacc prev rfl
          refine ⟨?_, ?_, ?_⟩
          · rcases hmem with hmem | hmem
            · exact Or.inl (by rw [hparked]; exact List.mem_cons_of_mem _ hmem)
            · exact Or.inr hmem
          · intro q hq
            rw [hparked] at hq
            rcases List.mem_cons.mp hq with hq | hq
            · cases hq
              exact SortToken.le_trans hle (SortToken.le_of_ltB hlt)
            · exact hmin q hq
          · intro q hq
            cases hq
            exact hle
        · next hlt =>
          rw [Bool.not_eq_true] at hlt
          obtain ⟨hmem, hmin, hacc⟩ := ih (some (id, task.token)) r h
          have hle : SortToken.le r.2 task.token := hacc (id, task.token) rfl
          refine ⟨?_, ?_, ?_⟩
          · rcases hmem with hmem | hmem
            · exact Or.inl (by rw [hparked]; exact List.mem_cons_of_mem _ hmem)
            · cases hmem
              exact Or.inl (by rw [hparked]; exact List.mem_cons_self _ _)
          · intro q hq
            rw [hparked] at hq
            rcases List.mem_cons.mp hq with hq | hq
            · cases hq; exact hle
            · exact hmin q hq
          · intro q hq
            cases hq
            exact SortToken.le_trans hle (SortToken.le_of_not_ltB hlt)
      · obtain ⟨hmem, hmin, hacc⟩ := ih (some (id, task.token)) r h
        have hle : SortToken.le r.2 task.token := hacc (id, task.token) rfl
        refine ⟨?_, ?_, by intro q hq; cases hq⟩
        · rcases hmem with hmem | hmem
          · exact Or.inl (by rw [hparked]; exact List.mem_cons_of_mem _ hmem)
          · cases hmem
            exact Or.inl (by rw [hparked]; exact List.mem_cons_self _ _)
        · intro q hq
          rw [hparked] at hq
          rcases List.mem_cons.mp hq with hq | hq
          · cases hq; exact hle
          · exact hmin q hq

-- association-list lemmas

theorem alGet_alPut_self {α β : Type} [DecidableEq α] (k : α) (v : β) (l : List (α × β)) :
    alGet k (alPut k v l) = some v := by
  simp [alPut, alGet]

theorem alGet_alRemove_self {α β : Type} [DecidableEq α] (k : α) (l : List (α × β)) :
    alGet k (alRemove k l) = none := by
  induction l with
  | nil => rfl
  | cons p rest ih =>
    obtain ⟨k', v'⟩ := p
    by_cases h : k' = k
    · simp [alRemove, h, ih]
    · simp [alRemove, alGet, h, ih]

theorem alGet_alSet_self {α β : Type} [DecidableEq α] (k : α) (v : β) (l : List (α × β))
    (h : (alGet k l).isSome = true) : alGet k (alSet k v l) = some v := by
  induction l with
  | nil => simp [alGet] at h
  | cons p rest ih =>
    obtain ⟨k', v'⟩ := p
    by_cases hk : k' = k
    · simp [alSet, hk, alGet]
    · simp only [alGet, hk, if_false] at h
      simp [alSet, alGet, hk, ih h]

theorem alGet_of_mem_nodup {α β : Type} [DecidableEq α] {l : List (α × β)} {k : α} {v : β}
    (hnd : (l.map Prod.fst).Nodup) (hmem : (k, v) ∈ l) : alGet k l = some v := by
  induction l with
  | nil => cases hmem
  | cons p rest ih =>
    obtain ⟨k', v'⟩ := p
    rw [List.map_cons, List.nodup_cons] at hnd
    rcases List.mem_cons.mp hmem with heq | hmem'
    · cases heq
      simp [alGet]
    · have hk : k' ≠ k := by
        intro h
        subst h
        exact hnd.1 (List.mem_map.mpr ⟨(k', v), hmem', rfl⟩)
      simpa [alGet, hk] using ih hnd.2 hmem'

theorem parkedOf_mem {l : List (ℕ × Agenda)} {i : ℕ} {t : SortToken} :
    (i, t) ∈ parkedOf l ↔
      ∃ ag task, (i, ag) ∈ l ∧ ag.next = some task ∧ task.token = t := by
  simp only [parkedOf, List.mem_filterMap, Option.map_eq_some']
  constructor
  · rintro ⟨⟨j, ag⟩, hmem, task, hnext, heq⟩
    cases heq
    exact ⟨ag, task, hmem, hnext, rfl⟩
  · rintro ⟨ag, task, hmem, hnext, rfl⟩
    exact ⟨(i, ag), hmem, task, hnext, rfl⟩

/-- `find_next_task` does not advance the clock itself. -/
theorem find_next_now {ws ws₁ : Workspace} {t : ℚ} {f : Fiber}
    (h : ws.find_next_task = some ((t, f), ws₁)) : ws₁.now = ws.now := by
  unfold Workspace.find_next_task at h
  split at h
  · split at h
    · split at h
      · cases h
        rfl
      · cases h
    · cases h
  · cases h
    rfl


/-- When no task is parked anywhere, the scan leaves its accumulator alone. -/
theorem scanMin_unparked : ∀ (l : List (ℕ × Agenda)) (acc : Option (ℕ × SortToken)),
    (∀ p ∈ l, (p : ℕ × Agenda).2.next = none) → scanMin l acc = acc := by
  intro l
  induction l with
  | nil => intro acc _; rfl
  | cons p rest ih =>
    intro acc h
    obtain ⟨id, ag⟩ := p
    have hn : ag.next = none := h (id, ag) (List.mem_cons_self _ _)
    unfold scanMin
    rw [hn]
    exact ih acc fun q hq => h q (List.mem_cons_of_mem _ hq)

/-- Over ℚ, a vector has zero squared magnitude exactly when it is zero
(the test `magnitude_squared == 0.0` used by `SetAccel`). -/
theorem magnitude_squared_eq_zero_iff (v : Vec3) :
    v.magnitude_squared = 0 ↔ v = Vec3.zero := by
  obtain ⟨x, y, z⟩ := v
  simp only [Vec3.magnitude_squared, Vec3.zero, Vec3.mk.injEq]
  constructor
  · intro h
    have hx : x * x = 0 ∧ y * y + z * z = 0 := by
      constructor
      · nlinarith [mul_self_nonneg x, mul_self_nonneg y, mul_self_nonneg z]
      · nlinarith [mul_self_nonneg x, mul_self_nonneg y, mul_self_nonneg z]
    have hy : y * y = 0 := by nlinarith [mul_self_nonneg y, mul_self_nonneg z, hx.2]
    have hz : z * z = 0 := by nlinarith [mul_self_nonneg y, mul_self_nonneg z, hx.2]
    exact ⟨mul_self_eq_zero.mp hx.1, mul_self_eq_zero.mp hy, mul_self_eq_zero.mp hz⟩
  · rintro ⟨rfl, rfl, rfl⟩
    ring

/-- A successful `get_position` leaves the result in the cache. -/
theorem get_position_caches {ws ws₁ : Workspace} {id : ℕ} {p : Vec3}
    (h : ws.get_position id = (.ok p, ws₁)) : alGet id ws₁.positions = some p := by
  unfold Workspace.get_position at h
  split at h
  · next q hq =>
    cases h
    exact hq
  · cases h
    exact alGet_alPut_self _ _ _

-- ======================================================================
-- Claim C1
-- ======================================================================

/-- Claim C1 (code bug): the spec demands standard kinematics — velocity
`v₀ + a·Δt` and position `x₀ + v₀·Δt + ½·a·Δt²`, with `x = 16.2` light-seconds
after accelerating from rest at `1e-5` for `1800` seconds.  The source's
`Trajectory::velocity_at` instead adds `a·Δt²·0.5` to the velocity (a
displacement formula), and `sample_at` multiplies that "velocity" by `Δt`
again: at the spec's own test point the code returns velocity `16.2` and
position `29160`, diverging from the spec's `0.018` and `16.2`. -/
theorem C1_trajectory_kinematics_code_bug :
    ((Trajectory.linear ⟨0,0,0⟩ 0 ⟨0,0,0⟩ ⟨1/100000,0,0⟩).velocity_at 1800).x = 81/5 ∧
    ((Trajectory.linear ⟨0,0,0⟩ 0 ⟨0,0,0⟩ ⟨1/100000,0,0⟩).sample_at 1800).x = 29160 ∧
    (specVelocityAt ⟨0,0,0⟩ ⟨1/100000,0,0⟩ 1800).x = 9/500 ∧
    (specPositionAt ⟨0,0,0⟩ ⟨0,0,0⟩ ⟨1/100000,0,0⟩ 1800).x = 81/5 ∧
    ((Trajectory.linear ⟨0,0,0⟩ 0 ⟨0,0,0⟩ ⟨1/100000,0,0⟩).velocity_at 1800).x ≠
      (specVelocityAt ⟨0,0,0⟩ ⟨1/100000,0,0⟩ 1800).x ∧
    ((Trajectory.linear ⟨0,0,0⟩ 0 ⟨0,0,0⟩ ⟨1/100000,0,0⟩).sample_at 1800).x ≠
      (specPositionAt ⟨0,0,0⟩ ⟨0,0,0⟩ ⟨1/100000,0,0⟩ 1800).x := by
  refine ⟨by decide, by decide, by decide, by decide, by decide, by decide⟩

-- ======================================================================
-- Claim C2
-- ======================================================================

/-- Claim C2: with at least one parked task (and the ECS's unique entity
ids), `find_next_task` returns a parked task whose `SortToken` is minimal
under the lexicographic `(eta, guid)` order and removes exactly that task
from its agenda; hence the dispatched eta is `≤` every parked eta, with
equal-eta ties broken by smaller guid (`SortToken.le` spells out both). -/
theorem C2_find_next_task_min (ws : Workspace)
    (hnd : (ws.agendas.map Prod.fst).Nodup)
    (hne : parkedOf ws.agendas ≠ []) :
    ∃ i ag task,
      (i, ag) ∈ ws.agendas ∧ ag.next = some task ∧
      ws.find_next_task = some ((task.token.eta, task.fiber),
        { ws with agendas := alSet i { ag with next := none } ws.agendas }) ∧
      (∀ p ∈ parkedOf ws.agendas, SortToken.le task.token p.2) ∧
      (∀ p ∈ parkedOf ws.agendas, task.token.eta ≤ p.2.eta) := by
  rcases hscan : scanMin ws.agendas none with _ | ⟨i, tok⟩
  · exact absurd (scanMin_none _ _ hscan).1 hne
  · obtain ⟨hmem, hmin, _⟩ := scanMin_spec _ _ _ hscan
    have hmem' : (i, tok) ∈ parkedOf ws.agendas := by
      rcases hmem with h | h
      · exact h
      · cases h
    obtain ⟨ag, task, hmemag, hnext, htok⟩ := parkedOf_mem.mp hmem'
    have halg : alGet i ws.agendas = some ag := alGet_of_mem_nodup hnd hmemag
    refine ⟨i, ag, task, hmemag, hnext, ?_, ?_, ?_⟩
    · unfold Workspace.find_next_task
      rw [hscan]
      dsimp only
      rw [halg]
      dsimp only
      rw [hnext]
    · intro p hp
      rw [htok]
      exact hmin p hp
    · intro p hp
      exact SortToken.eta_le_of_le (htok ▸ hmin p hp)

/-- A concrete world with two parked tasks (etas 5 and 3): the scheduler must
pick the eta-3 task. -/
def wsC2 : Workspace :=
  { Workspace.init with
    agendas := [(0, ⟨some ⟨⟨5, 1⟩, Fiber.new 0 []⟩, []⟩),
                (1, ⟨some ⟨⟨3, 2⟩, Fiber.new 1 []⟩, []⟩)] }

/-- Witness for C2 at a concrete two-task world. -/
theorem C2_witness :
    ∃ i ag task,
      (i, ag) ∈ wsC2.agendas ∧ ag.next = some task ∧
      wsC2.find_next_task = some ((task.token.eta, task.fiber),
        { wsC2 with agendas := alSet i { ag with next := none } wsC2.agendas }) ∧
      (∀ p ∈ parkedOf wsC2.agendas, SortToken.le task.token p.2) ∧
      (∀ p ∈ parkedOf wsC2.agendas, task.token.eta ≤ p.2.eta) :=
  C2_find_next_task_min wsC2 (by decide) (by decide)

-- ======================================================================
-- Claim C4
-- ======================================================================

/-- Claim C4: when no task is parked on any agenda, `find_next_task`
synthesises a task at `eta = now + 1` second whose fiber runs `Halt` on the
supervisor; a fresh world's `simulate()` therefore performs exactly one
dispatch, ending with `now = 1` and `has_halted`. -/
theorem C4_empty_agenda_halt :
    (∀ ws : Workspace, ws.agendas.all (fun p => p.2.next.isNone) = true →
       ws.find_next_task = some ((ws.now + 1, Fiber.new ws.supervisor [.halt]), ws)) ∧
    (Workspace.simulate 3 Workspace.init 0).dispOf = some 1 ∧
    (Workspace.simulate 3 Workspace.init 0).wsOf.now = 1 ∧
    (Workspace.simulate 3 Workspace.init 0).wsOf.has_halted = true := by
  refine ⟨?_, by decide, by decide, by decide⟩
  intro ws h
  have h' : ∀ p ∈ ws.agendas, (p : ℕ × Agenda).2.next = none := by
    intro p hp
    exact Option.isNone_iff_eq_none.mp (List.all_eq_true.mp h p hp)
  unfold Workspace.find_next_task
  rw [scanMin_unparked _ _ h']

/-- Witness for C4's universally quantified part at the fresh world. -/
theorem C4_witness :
    Workspace.init.find_next_task =
      some ((Workspace.init.now + 1, Fiber.new Workspace.init.supervisor [.halt]),
            Workspace.init) :=
  C4_empty_agenda_halt.1 Workspace.init (by decide)

-- ======================================================================
-- Claim C5
-- ======================================================================

/-- Claim C5: every successful dispatch sets `now` to the selected task's
eta, which is never below the previous `now` (so `now` is monotone
non-decreasing across dispatches); an eta in the past trips the
`assert!(time >= self.now)` and is fatal, not a recoverable error. -/
theorem C5_now_monotone :
    (∀ (fuel : ℕ) (ws ws' : Workspace) (k : ExitKind),
       ws.update fuel = .done ws' k →
       ws.now ≤ ws'.now ∧
       ∃ t f ws₁, ws.find_next_task = some ((t, f), ws₁) ∧ ws'.now = t) ∧
    (∀ (fuel : ℕ) (ws ws₁ : Workspace) (t : ℚ) (f : Fiber),
       ws.find_next_task = some ((t, f), ws₁) → t < ws.now →
       ws.update fuel = .fatal ws₁ "Time went backwards") := by
  constructor
  · intro fuel ws ws' k h
    unfold Workspace.update at h
    split at h
    · cases h
    · next t f ws₁ hf =>
      split at h
      · cases h
      · next hge =>
        have hnow : ws'.now = t := by
          have h0 := runAux_now fuel { ws₁ with now := t, positions := [] } f
          rw [h] at h0
          exact h0
        have h₁ : ws₁.now = ws.now := find_next_now hf
        refine ⟨?_, t, f, ws₁, hf, hnow⟩
        rw [hnow]
        rw [h₁] at hge
        exact le_of_not_lt hge
  · intro fuel ws ws₁ t f h hlt
    unfold Workspace.update
    rw [h]
    dsimp only
    rw [if_pos ((find_next_now h).symm ▸ hlt)]

/-- A concrete world whose only parked task has eta `-1 < now = 0`:
dispatching it is fatal. -/
def wsC5 : Workspace :=
  { Workspace.init with
    agendas := [(0, ⟨some ⟨⟨-1, 0⟩, Fiber.new 0 []⟩, []⟩)] }

/-- The same world after `find_next_task` has taken the offending task. -/
def wsC5taken : Workspace :=
  { wsC5 with agendas := alSet 0 ⟨none, []⟩ wsC5.agendas }

/-- Witness for C5: a successful dispatch on the fresh world (monotone), and
the fatal assertion on a backwards task. -/
theorem C5_witness :
    (Workspace.init.now ≤ (Workspace.init.update 3).endWs.now ∧
     ∃ t f ws₁, Workspace.init.find_next_task = some ((t, f), ws₁) ∧
       (Workspace.init.update 3).endWs.now = t) ∧
    wsC5.update 3 = .fatal wsC5taken "Time went backwards" :=
  ⟨C5_now_monotone.1 3 Workspace.init (Workspace.init.update 3).endWs .exhausted rfl,
   C5_now_monotone.2 3 wsC5 wsC5taken (-1) (Fiber.new 0 []) rfl (by decide)⟩

-- ======================================================================
-- Claim C3
-- ======================================================================

/-- Claim C3: a `Transmit` of signal `s` (whose arguments evaluate
successfully) rewrites every agenda through `transmitOne`: each actor whose
`listening` table holds `s` loses that entry and gets a `QueuedTask` with
`eta = now` and the listener's original guid written into `next`; afterwards
no listening table contains `s`, agendas without a matching listener are
untouched, and the transmitting fiber continues (the result is `contin`,
never a suspension). -/
theorem C3_transmit_wakes_listeners (n : ℕ) (ws ws₁ : Workspace) (f : Fiber)
    (head : String) (args : List Expr) (body : List Value)
    (h : ws.evalArgs f args = (ws₁, .ok body)) :
    execAction n ws f (.transmit head args) =
      .contin { ws₁ with agendas := transmitAgendas ⟨head, body⟩ ws₁.now ws₁.agendas } f ∧
    ws₁.now = ws.now ∧
    (∀ p ∈ transmitAgendas ⟨head, body⟩ ws₁.now ws₁.agendas,
       alGet (⟨head, body⟩ : Signal) (p : ℕ × Agenda).2.listening = none) ∧
    (∀ (eta : ℚ) (ag : Agenda) (w : Waiting),
       alGet (⟨head, body⟩ : Signal) ag.listening = some w →
       transmitOne ⟨head, body⟩ eta ag =
         ⟨some ⟨⟨eta, w.guid⟩, w.fiber⟩, alRemove (⟨head, body⟩ : Signal) ag.listening⟩) ∧
    (∀ (eta : ℚ) (ag : Agenda),
       alGet (⟨head, body⟩ : Signal) ag.listening = none →
       transmitOne ⟨head, body⟩ eta ag = ag) := by
  refine ⟨?_, ?_, ?_, ?_, ?_⟩
  · have h1 : execTransmit ws f head args =
        .contin { ws₁ with agendas := transmitAgendas ⟨head, body⟩ ws₁.now ws₁.agendas } f := by
      unfold execTransmit
      rw [h]
    exact h1
  · have h0 := (evalArgs_untouched args ws f).1
    rw [h] at h0
    exact h0
  · intro p hp
    obtain ⟨⟨i, ag⟩, _, rfl⟩ := List.mem_map.mp hp
    show alGet (⟨head, body⟩ : Signal) (transmitOne ⟨head, body⟩ ws₁.now ag).listening = none
    unfold transmitOne
    rcases hl : alGet (⟨head, body⟩ : Signal) ag.listening with _ | w
    · exact hl
    · exact alGet_alRemove_self _ _
  · intro eta ag w hw
    unfold transmitOne
    rw [hw]
  · intro eta ag hn
    unfold transmitOne
    rw [hn]

/-- The signal used in C3's witness world. -/
def sigC3 : Signal := ⟨"ping", []⟩

/-- A world with a listener for `sigC3` on actor 0 and, on actor 1, both a
listener for `sigC3` and an already-parked task (to see the overwrite). -/
def wsC3 : Workspace :=
  { Workspace.init with
    agendas := [(0, ⟨none, [(sigC3, ⟨7, Fiber.new 0 [.halt]⟩)]⟩),
                (1, ⟨some ⟨⟨9, 1⟩, Fiber.new 1 []⟩, [(sigC3, ⟨8, Fiber.new 1 [.halt]⟩)]⟩)] }

/-- Witness for C3 on the concrete two-listener world. -/
theorem C3_witness :
    execAction 1 wsC3 (Fiber.new 0 []) (.transmit "ping" []) =
      .contin { wsC3 with agendas := transmitAgendas ⟨"ping", []⟩ wsC3.now wsC3.agendas }
        (Fiber.new 0 []) ∧
    wsC3.now = wsC3.now ∧
    (∀ p ∈ transmitAgendas ⟨"ping", []⟩ wsC3.now wsC3.agendas,
       alGet (⟨"ping", []⟩ : Signal) (p : ℕ × Agenda).2.listening = none) ∧
    (∀ (eta : ℚ) (ag : Agenda) (w : Waiting),
       alGet (⟨"ping", []⟩ : Signal) ag.listening = some w →
       transmitOne ⟨"ping", []⟩ eta ag =
         ⟨some ⟨⟨eta, w.guid⟩, w.fiber⟩, alRemove (⟨"ping", []⟩ : Signal) ag.listening⟩) ∧
    (∀ (eta : ℚ) (ag : Agenda),
       alGet (⟨"ping", []⟩ : Signal) ag.listening = none →
       transmitOne ⟨"ping", []⟩ eta ag = ag) :=
  C3_transmit_wakes_listeners 1 wsC3 wsC3 (Fiber.new 0 []) "ping" [] [] rfl

-- ======================================================================
-- Claim C6
-- ======================================================================

/-- A nested `AsActor` run never makes the outer action a suspension. -/
theorem asActorOut_ne_suspended (r : RunResult) (g : Fiber) (ws' : Workspace) (k : ExitKind) :
    asActorOut r g ≠ .suspended ws' k := by
  cases r <;> simp [asActorOut]

/-- Claim C6, amended: `Wait` and `ListenFor` are the only two actions whose
dispatch suspends the running fiber (parks it and `break`s the loop) — but,
contrary to the claim as stated, `Halt` does not exit the dispatch loop: it
merely sets `has_halted` and the loop continues with the next fetch.  (The
loop also stops on frame exhaustion and on error/panic propagation, by
construction of `runAux`.) -/
theorem C6_suspension_points :
    (∀ (n : ℕ) (ws ws' : Workspace) (f : Fiber) (a : Action) (k : ExitKind),
       execAction n ws f a = .suspended ws' k →
       ((∃ i, a = .wait i) ∧ k = .suspendedWait) ∨
       ((∃ hd args, a = .listenFor hd args) ∧ k = .suspendedListen)) ∧
    (∀ (n : ℕ) (ws : Workspace) (f : Fiber),
       execAction n ws f .halt = .contin { ws with has_halted := true } f) := by
  constructor
  · intro n ws ws' f a k h
    cases a with
    | halt => exact ActionOut.noConfusion h
    | trace e =>
      simp only [execAction, execAction1, execTrace] at h
      split at h <;> exact ActionOut.noConfusion h
    | spawn name =>
      simp only [execAction, execAction1, execSpawn] at h
      split at h <;> exact ActionOut.noConfusion h
    | asActor name script =>
      simp only [execAction] at h
      split at h
      · exact ActionOut.noConfusion h
      · split at h
        · exact ActionOut.noConfusion h
        · exact absurd h (asActorOut_ne_suspended _ _ _ _)
    | setAccel value =>
      simp only [execAction, execAction1, execSetAccel] at h
      split at h
      · exact ActionOut.noConfusion h
      · split at h <;> exact ActionOut.noConfusion h
    | wait i =>
      simp only [execAction, execAction1, execWait] at h
      split at h
      · exact ActionOut.noConfusion h
      · injection h with h1 h2
        exact Or.inl ⟨⟨i, rfl⟩, h2.symm⟩
    | listenFor hd args =>
      simp only [execAction, execAction1, execListenFor] at h
      split at h
      · exact ActionOut.noConfusion h
      · split at h
        · exact ActionOut.noConfusion h
        · injection h with h1 h2
          exact Or.inr ⟨⟨hd, args, rfl⟩, h2.symm⟩
    | transmit hd args =>
      simp only [execAction, execAction1, execTransmit] at h
      split at h <;> exact ActionOut.noConfusion h
    | die => exact ActionOut.noConfusion h
    | writeLocal name value =>
      simp only [execAction, execAction1, execWriteLocal] at h
      split at h
      · exact ActionOut.noConfusion h
      · split at h <;> exact ActionOut.noConfusion h
    | defGlobalMethod name body => exact ActionOut.noConfusion h
    | call name args =>
      simp only [execAction, execAction1, execCall] at h
      split at h
      · exact ActionOut.noConfusion h
      · split at h
        · exact ActionOut.noConfusion h
        · split at h <;> exact ActionOut.noConfusion h
    | ret => exact ActionOut.noConfusion h
  · intro n ws f
    rfl

/-- The workspace after a `Wait 1` suspension on the fresh world. -/
def wsC6W : Workspace := (execAction 1 Workspace.init (Fiber.new 0 []) (.wait 1)).outWs

/-- Witness for C6 at a concrete `Wait`. -/
theorem C6_witness :
    ((∃ i, (Action.wait 1) = Action.wait i) ∧
       ExitKind.suspendedWait = ExitKind.suspendedWait) ∨
    ((∃ hd args, (Action.wait 1) = Action.listenFor hd args) ∧
       ExitKind.suspendedWait = ExitKind.suspendedListen) :=
  C6_suspension_points.1 1 Workspace.init wsC6W (Fiber.new 0 []) (.wait 1)
    .suspendedWait rfl

/-- Counterexample to C6 as stated: running the script `[Halt, Wait 1]`
continues past `Halt` — the fiber goes on to execute `Wait`, parking a task
on the supervisor's agenda with `has_halted` already true.  Had executing
`Halt` exited the dispatch loop, no task could have been parked. -/
theorem C6_counterexample :
    (runAux 5 Workspace.init (Fiber.new 0 [.halt, .wait 1])).kindOf =
      some .suspendedWait ∧
    (runAux 5 Workspace.init (Fiber.new 0 [.halt, .wait 1])).endWs.has_halted = true ∧
    ((alGet 0 (runAux 5 Workspace.init (Fiber.new 0 [.halt, .wait 1])).endWs.agendas).map
       (fun ag => ag.next.isSome)) = some true := by
  refine ⟨by decide, by decide, by decide⟩

-- ======================================================================
-- Claim C7
-- ======================================================================

/-- The trajectory `SetAccel(value)` stores, given the current position,
instant and velocity: collapse to `Fixed` iff both squared magnitudes are
zero, else `Linear`. -/
def newTrajFor (pos : Vec3) (now : ℚ) (vel value : Vec3) : Trajectory :=
  if vel.magnitude_squared = 0 ∧ value.magnitude_squared = 0 then .fixed pos
  else .linear pos now vel value

/-- `ws` with one trajectory component overwritten. -/
def setTraj (ws : Workspace) (me : ℕ) (tr : Trajectory) : Workspace :=
  { ws with trajectories := alSet me tr ws.trajectories }

/-- The exact effect of `SetAccel` when the actor has a trajectory:
overwrite it according to `newTrajFor`. -/
theorem execSetAccel_eq (ws ws₁ : Workspace) (f : Fiber) (value pos : Vec3)
    (tr : Trajectory)
    (hgp : ws.get_position f.me = (.ok pos, ws₁))
    (htr : alGet f.me ws₁.trajectories = some tr) :
    execSetAccel ws f value =
      .contin (setTraj ws₁ f.me (newTrajFor pos ws₁.now (tr.velocity_at ws₁.now) value)) f := by
  unfold execSetAccel
  rw [hgp]
  dsimp only
  rw [htr]
  rfl

/-- One successful, memoised position read. -/
theorem get_position_memo {ws ws₁ : Workspace} {id : ℕ} {p : Vec3}
    (h : ws.get_position id = (.ok p, ws₁)) :
    ws₁.get_position id = (.ok p, ws₁) := by
  have hc : alGet id ws₁.positions = some p := get_position_caches h
  unfold Workspace.get_position
  rw [hc]

/-- Claim C7, amended: `SetAccel` collapses to `Fixed{current position}`
exactly when the old velocity and the new acceleration are both zero
(zero squared magnitude, equivalently the zero vector over exact
arithmetic), and otherwise stores
`Linear{start_place = position, start_time = now, start_velocity, accel}`.
Consequently two successive `SetAccel(0)` in the same instant leave a
`Fixed` trajectory at the (memoised) current position **provided the
actor's velocity at that instant is zero** — not for every actor, as the
claim's first sentence has it (see the counterexample for a moving
actor). -/
theorem C7_setaccel_collapse :
    (∀ (n : ℕ) (ws ws₁ : Workspace) (f : Fiber) (value pos : Vec3) (tr : Trajectory),
       ws.get_position f.me = (.ok pos, ws₁) →
       alGet f.me ws₁.trajectories = some tr →
       execAction n ws f (.setAccel value) =
         .contin (setTraj ws₁ f.me (newTrajFor pos ws₁.now (tr.velocity_at ws₁.now) value)) f) ∧
    (∀ v : Vec3, v.magnitude_squared = 0 ↔ v = Vec3.zero) ∧
    (∀ (n : ℕ) (ws ws₁ : Workspace) (f : Fiber) (pos : Vec3) (tr : Trajectory),
       ws.get_position f.me = (.ok pos, ws₁) →
       alGet f.me ws₁.trajectories = some tr →
       tr.velocity_at ws₁.now = Vec3.zero →
       ∃ ws₂,
         execAction n ws f (.setAccel Vec3.zero) = .contin ws₂ f ∧
         alGet f.me ws₂.trajectories = some (.fixed pos) ∧
         execAction n ws₂ f (.setAccel Vec3.zero) =
           .contin (setTraj ws₂ f.me (.fixed pos)) f) := by
  refine ⟨?_, magnitude_squared_eq_zero_iff, ?_⟩
  · intro n ws ws₁ f value pos tr hgp htr
    exact execSetAccel_eq ws ws₁ f value pos tr hgp htr
  · intro n ws ws₁ f pos tr hgp htr hv
    have hcond : (tr.velocity_at ws₁.now).magnitude_squared = 0 ∧
        (Vec3.zero).magnitude_squared = 0 :=
      ⟨(magnitude_squared_eq_zero_iff _).mpr hv, by decide⟩
    have h1 := execSetAccel_eq ws ws₁ f Vec3.zero pos tr hgp htr
    rw [show newTrajFor pos ws₁.now (tr.velocity_at ws₁.now) Vec3.zero = .fixed pos
        from if_pos hcond] at h1
    refine ⟨setTraj ws₁ f.me (.fixed pos), h1, ?_, ?_⟩
    · exact alGet_alSet_self _ _ _ (by rw [htr]; rfl)
    · have hgp2 : (setTraj ws₁ f.me (.fixed pos)).get_position f.me =
          (.ok pos, setTraj ws₁ f.me (.fixed pos)) := by
        have hc0 := get_position_caches hgp
        have hc : alGet f.me (setTraj ws₁ f.me (.fixed pos)).positions = some pos := hc0
        unfold Workspace.get_position
        rw [hc]
      have htr2 : alGet f.me (setTraj ws₁ f.me (.fixed pos)).trajectories =
          some (.fixed pos) := alGet_alSet_self _ _ _ (by rw [htr]; rfl)
      have h2 := execSetAccel_eq _ _ f Vec3.zero pos (.fixed pos) hgp2 htr2
      have hz : ((Trajectory.fixed pos).velocity_at
          (setTraj ws₁ f.me (.fixed pos)).now).magnitude_squared = 0 ∧
          (Vec3.zero).magnitude_squared = 0 := by
        constructor <;> norm_num [Trajectory.velocity_at, Vec3.magnitude_squared, Vec3.zero]
      rw [show newTrajFor pos (setTraj ws₁ f.me (.fixed pos)).now
            ((Trajectory.fixed pos).velocity_at (setTraj ws₁ f.me (.fixed pos)).now)
            Vec3.zero = .fixed pos from if_pos hz] at h2
      exact h2

/-- A moving actor (velocity `(1,0,0)`, no acceleration) for the C7
counterexample. -/
def wsC7 : Workspace :=
  { Workspace.init with
    trajectories := [(1, .linear ⟨0,0,0⟩ 0 ⟨1,0,0⟩ ⟨0,0,0⟩)],
    agendas := Workspace.init.agendas ++ [(1, Agenda.empty)] }

/-- Whether a trajectory is the `Fixed` variant. -/
def Trajectory.isFixed : Trajectory → Bool
  | .fixed _ => true
  | .linear _ _ _ _ => false

/-- Counterexample to C7 as stated: on an actor moving with velocity
`(1,0,0)`, executing `SetAccel(0)` twice in the same instant leaves a
`Linear` trajectory (the velocity is preserved), not a `Fixed` one. -/
theorem C7_counterexample :
    (runAux 5 wsC7 (Fiber.new 1 [.setAccel ⟨0,0,0⟩, .setAccel ⟨0,0,0⟩])).kindOf =
      some .exhausted ∧
    (alGet 1 (runAux 5 wsC7
        (Fiber.new 1 [.setAccel ⟨0,0,0⟩, .setAccel ⟨0,0,0⟩])).endWs.trajectories) =
      some (.linear ⟨0,0,0⟩ 0 ⟨1,0,0⟩ ⟨0,0,0⟩) ∧
    ((alGet 1 (runAux 5 wsC7
        (Fiber.new 1 [.setAccel ⟨0,0,0⟩, .setAccel ⟨0,0,0⟩])).endWs.trajectories).map
       Trajectory.isFixed) = some false := by
  refine ⟨by decide, by decide, by decide⟩

/-- `ws` with a position memoised into the cache. -/
def cachePos (ws : Workspace) (id : ℕ) (p : Vec3) : Workspace :=
  { ws with positions := alPut id p ws.positions }

/-- A resting actor (entity 1, `Fixed` at `(2,3,4)`) for C7's witness. -/
def wsC7rest : Workspace :=
  { Workspace.init with
    trajectories := [(1, .fixed ⟨2,3,4⟩)],
    agendas := Workspace.init.agendas ++ [(1, Agenda.empty)] }

/-- Witness for C7: from rest, two `SetAccel(0)` in the same instant leave
`Fixed` at the memoised current position. -/
theorem C7_witness :
    ∃ ws₂,
      execAction 1 wsC7rest (Fiber.new 1 []) (.setAccel Vec3.zero) =
        .contin ws₂ (Fiber.new 1 []) ∧
      alGet 1 ws₂.trajectories = some (.fixed ⟨2,3,4⟩) ∧
      execAction 1 ws₂ (Fiber.new 1 []) (.setAccel Vec3.zero) =
        .contin (setTraj ws₂ 1 (.fixed ⟨2,3,4⟩)) (Fiber.new 1 []) :=
  C7_setaccel_collapse.2.2 1 wsC7rest (cachePos wsC7rest 1 ⟨2,3,4⟩) (Fiber.new 1 [])
    ⟨2,3,4⟩ (.fixed ⟨2,3,4⟩) rfl rfl rfl

-- ======================================================================
-- Claim C8
-- ======================================================================

/-- An agenda with its `next` slot overwritten. -/
def parkTask (ag : Agenda) (t : QueuedTask) : Agenda := { ag with next := some t }

/-- `ws` after `Wait`: guid consumed and the waiter's agenda overwritten. -/
def afterWait (ws : Workspace) (me : ℕ) (ag : Agenda) (t : QueuedTask) : Workspace :=
  { ws with task_counter := ws.task_counter + 1,
            agendas := alSet me (parkTask ag t) ws.agendas }

/-- Claim C8: the `next` slot holds at most one task by construction (it is
an `Option`), and both `Wait` and a `Transmit`-driven listener fulfilment
write it unconditionally — a task already parked there is replaced (last
writer wins), never queued behind. -/
theorem C8_next_slot_overwrite :
    (∀ (ag : Agenda) (t₁ t₂ : QueuedTask), ag.next = some t₁ → ag.next = some t₂ → t₁ = t₂) ∧
    (∀ (n : ℕ) (ws : Workspace) (f : Fiber) (interval : ℚ) (ag : Agenda),
       alGet f.me ws.agendas = some ag →
       execAction n ws f (.wait interval) =
         .suspended (afterWait ws f.me ag ⟨⟨ws.now + interval, ws.task_counter⟩, f⟩)
           .suspendedWait) ∧
    (∀ (sig : Signal) (eta : ℚ) (ag : Agenda) (w : Waiting),
       alGet sig ag.listening = some w →
       (transmitOne sig eta ag).next = some ⟨⟨eta, w.guid⟩, w.fiber⟩) := by
  refine ⟨?_, ?_, ?_⟩
  · intro ag t₁ t₂ h₁ h₂
    rw [h₁] at h₂
    exact Option.some_injective _ h₂
  · intro n ws f interval ag h
    have h1 : execWait ws f interval =
        .suspended (afterWait ws f.me ag ⟨⟨ws.now + interval, ws.task_counter⟩, f⟩)
          .suspendedWait := by
      simp only [execWait]
      rw [h]
      rfl
    exact h1
  · intro sig eta ag w hw
    unfold transmitOne
    rw [hw]

/-- A world whose supervisor already has a parked task (eta 99, guid 7): the
witness shows `Wait` replaces it. -/
def wsC8 : Workspace :=
  { Workspace.init with
    agendas := [(0, ⟨some ⟨⟨99, 7⟩, Fiber.new 0 []⟩, []⟩)] }

/-- The old agenda of `wsC8`'s supervisor. -/
def agC8 : Agenda := ⟨some ⟨⟨99, 7⟩, Fiber.new 0 []⟩, []⟩

/-- Witness for C8: replacing an already-parked task by `Wait`, and a
`Transmit` fulfilment overwriting `next`. -/
theorem C8_witness :
    (⟨⟨99, 7⟩, Fiber.new 0 []⟩ : QueuedTask) = ⟨⟨99, 7⟩, Fiber.new 0 []⟩ ∧
    execAction 1 wsC8 (Fiber.new 0 []) (.wait 2) =
      .suspended (afterWait wsC8 0 agC8 ⟨⟨wsC8.now + 2, wsC8.task_counter⟩, Fiber.new 0 []⟩)
        .suspendedWait ∧
    (transmitOne sigC3 5 ⟨some ⟨⟨99, 7⟩, Fiber.new 0 []⟩,
        [(sigC3, ⟨3, Fiber.new 0 []⟩)]⟩).next = some ⟨⟨5, 3⟩, Fiber.new 0 []⟩ :=
  ⟨C8_next_slot_overwrite.1 agC8 _ _ rfl rfl,
   C8_next_slot_overwrite.2.1 1 wsC8 (Fiber.new 0 []) 2 agC8 rfl,
   C8_next_slot_overwrite.2.2 sigC3 5 _ ⟨3, Fiber.new 0 []⟩ rfl⟩

-- ======================================================================
-- Claim C9
-- ======================================================================

/-- Claim C9: `get_position` is total — it never produces `MissingPosition`
(or any error): an actor with no `Trajectory` component falls back to the
default `Fixed`-at-origin trajectory, yielding the origin; and within one
step the read is memoised, so a second read returns the identical value and
leaves the workspace unchanged. -/
theorem C9_get_position_total (ws : Workspace) (id : ℕ) :
    (∃ p, (ws.get_position id).1 = .ok p) ∧
    (alGet id ws.positions = none → alGet id ws.trajectories = none →
       ws.get_position id = (.ok Vec3.zero, cachePos ws id Vec3.zero)) ∧
    (ws.get_position id).2.get_position id = ws.get_position id := by
  refine ⟨?_, ?_, ?_⟩
  · unfold Workspace.get_position
    split
    · exact ⟨_, rfl⟩
    · exact ⟨_, rfl⟩
  · intro h1 h2
    unfold Workspace.get_position
    rw [h1]
    dsimp only
    rw [h2]
    rfl
  · rcases hc : alGet id ws.positions with _ | p
    · have h1 : ws.get_position id =
          (.ok (((alGet id ws.trajectories).getD Trajectory.default).sample_at ws.now),
           cachePos ws id (((alGet id ws.trajectories).getD Trajectory.default).sample_at ws.now)) := by
        unfold Workspace.get_position
        rw [hc]
        rfl
      rw [h1]
      exact get_position_memo h1
    · have h1 : ws.get_position id = (.ok p, ws) := by
        unfold Workspace.get_position
        rw [hc]
      rw [h1]
      exact h1

/-- Witness for C9's default-trajectory part: a fresh world has neither a
cached position nor a trajectory for entity 5. -/
theorem C9_witness :
    Workspace.init.get_position 5 = (.ok Vec3.zero, cachePos Workspace.init 5 Vec3.zero) :=
  (C9_get_position_total Workspace.init 5).2.1 rfl rfl

-- ======================================================================
-- Claim C10
-- ======================================================================

/-- `ws` after `ListenFor` has drawn its guid (`make_guid`). -/
def bumpGuid (ws : Workspace) : Workspace :=
  { ws with task_counter := ws.task_counter + 1 }

/-- Claim C10: if evaluating an argument of `ListenFor` or `Transmit` fails,
the error propagates before any agenda is written: no listener is inserted
or removed and no task is installed, every agenda being exactly as before —
though `ListenFor` has already consumed a guid from the counter (the guid is
drawn before the arguments are evaluated), while a failed `Transmit` leaves
the counter untouched. -/
theorem C10_arg_error_preserves_agendas :
    (∀ (ws ws₂ : Workspace) (f : Fiber) (head : String) (args : List Expr) (e : Error),
       (bumpGuid ws).evalArgs f args = (ws₂, .error e) →
       execListenFor ws f head args = .failed ws₂ e ∧
       ws₂.agendas = ws.agendas ∧ ws₂.task_counter = ws.task_counter + 1) ∧
    (∀ (ws ws₁ : Workspace) (f : Fiber) (head : String) (args : List Expr) (e : Error),
       ws.evalArgs f args = (ws₁, .error e) →
       execTransmit ws f head args = .failed ws₁ e ∧
       ws₁.agendas = ws.agendas ∧ ws₁.task_counter = ws.task_counter) := by
  constructor
  · intro ws ws₂ f head args e h
    have hu := evalArgs_untouched args (bumpGuid ws) f
    rw [h] at hu
    refine ⟨?_, hu.2.1, hu.2.2⟩
    simp only [execListenFor]
    rw [show Workspace.evalArgs { ws with task_counter := ws.task_counter + 1 } f args =
          (ws₂, .error e) from h]
  · intro ws ws₁ f head args e h
    have hu := evalArgs_untouched args ws f
    rw [h] at hu
    refine ⟨?_, hu.2.1, hu.2.2⟩
    unfold execTransmit
    rw [h]

/-- Witness for C10 with a `Var` argument that names no local or global. -/
theorem C10_witness :
    (execListenFor Workspace.init (Fiber.new 0 []) "sig" [.var "nope"] =
       .failed (bumpGuid Workspace.init) (.noSuchGlobal "nope") ∧
     (bumpGuid Workspace.init).agendas = Workspace.init.agendas ∧
     (bumpGuid Workspace.init).task_counter = Workspace.init.task_counter + 1) ∧
    (execTransmit Workspace.init (Fiber.new 0 []) "sig" [.var "nope"] =
       .failed Workspace.init (.noSuchGlobal "nope") ∧
     Workspace.init.agendas = Workspace.init.agendas ∧
     Workspace.init.task_counter = Workspace.init.task_counter) :=
  ⟨C10_arg_error_preserves_agendas.1 Workspace.init (bumpGuid Workspace.init)
      (Fiber.new 0 []) "sig" [.var "nope"] (.noSuchGlobal "nope") rfl,
   C10_arg_error_preserves_agendas.2 Workspace.init Workspace.init
      (Fiber.new 0 []) "sig" [.var "nope"] (.noSuchGlobal "nope") rfl⟩

end Histrion
